import Mathlib

/-!
Verification development for the `BinaryBlast` reader of compiled protein
BLAST databases (`src/BinaryBlast.py`).

The Python source is shallowly embedded below.  Byte streams are modelled as
`List Nat` (each element a byte value); Python's unbounded integers are `Nat`
(or `Int` where the source subtracts); slicing `s[a:b]` becomes
`(s.drop a).take (b - a)` which, like Python, clamps at the end of the list;
`int.from_bytes(bs, 'big')` becomes a big-endian fold; fallible code returns
`Except`, with one error constructor per distinct Python failure mode
(raised exception or diagnostic-print-and-quit).
-/

/-- Big-endian value of a byte list, as in `int.from_bytes(bs, 'big')`.
`int.from_bytes(b'') = 0`, matching the fold on `[]`. -/
def beValue (l : List Nat) : Nat := l.foldl (fun acc b => acc * 256 + b) 0

/-- Read `n` bytes at position `p` of stream `s` and take their big-endian
value; a read past end-of-stream yields fewer bytes, as in Python. -/
def readBEslice (s : List Nat) (p n : Nat) : Nat := beValue ((s.drop p).take n)

/-- Read `n` consecutive 4-byte big-endian integers starting at position `p`,
modelling consecutive `int.from_bytes(self.index.read(4), 'big')` calls. -/
def readInts (s : List Nat) : Nat → Nat → List Nat
  | _, 0 => []
  | p, Nat.succ n => readBEslice s p 4 :: readInts s (p + 4) n

/-- The header-offset loop of `BinaryBlast.__init__` (lines 49-53): with the
leading cumulative offset `i` and the remaining cumulative offsets, emit
`(i, a - i)` for each consecutive pair. -/
def offsetPairsH : Nat → List Nat → List (Int × Int)
  | _, [] => []
  | i, a :: rest => ((i : Int), (a : Int) - (i : Int)) :: offsetPairsH a rest

/-- The sequence-offset loop of `BinaryBlast.__init__` (lines 55-59): emit
`(i, a - i - 1)` for each consecutive pair (the trailing NUL separator byte
is dropped from the length). -/
def offsetPairsS : Nat → List Nat → List (Int × Int)
  | _, [] => []
  | i, a :: rest => ((i : Int), (a : Int) - (i : Int) - 1) :: offsetPairsS a rest

/-- Title length `t`: 4-byte big-endian integer at offset 8 of the index
stream (`self.index.seek(8)` then `read(4)`). -/
def titleLen (s : List Nat) : Nat := readBEslice s 8 4

/-- Title bytes: the `t` bytes following the title length. -/
def titleBytes (s : List Nat) : List Nat := (s.drop 12).take (titleLen s)

/-- Timestamp length `s`: the 4-byte integer following the title. -/
def tsLen (s : List Nat) : Nat := readBEslice s (12 + titleLen s) 4

/-- Sequence count: 4-byte integer at absolute offset `t + s + 16`
(`self.index.seek(t + s + 16)` then `read(4)`). -/
def seqNumber (s : List Nat) : Nat := readBEslice s (titleLen s + tsLen s + 16) 4

/-- Offset tables begin at absolute offset `t + s + 32`
(`self.index.seek(t + s + 32)`), after the skipped residue count and
maximum sequence length. -/
def tableBase (s : List Nat) : Nat := titleLen s + tsLen s + 32

/-- The `seqNumber s + 1` stored cumulative header offsets. -/
def headerCums (s : List Nat) : List Nat := readInts s (tableBase s) (seqNumber s + 1)

/-- The `seqNumber s + 1` stored cumulative sequence offsets, read directly
after the header table. -/
def seqCums (s : List Nat) : List Nat :=
  readInts s (tableBase s + 4 * (seqNumber s + 1)) (seqNumber s + 1)

/-- Header offset entries produced from the cumulative header offsets. -/
def headerOffsetsOf (s : List Nat) : List (Int × Int) :=
  match headerCums s with
  | [] => []
  | i :: rest => offsetPairsH i rest

/-- Sequence offset entries produced from the cumulative sequence offsets. -/
def seqOffsetsOf (s : List Nat) : List (Int × Int) :=
  match seqCums s with
  | [] => []
  | i :: rest => offsetPairsS i rest

/-- The state derived from the `.pin` index stream by `BinaryBlast.__init__`. -/
structure PinIndex where
  title : List Nat
  sequence_number : Nat
  header_offsets : List (Int × Int)
  sequence_offsets : List (Int × Int)
deriving DecidableEq

/-- The index-parsing portion of `BinaryBlast.__init__` (lines 40-59). -/
def parsePin (s : List Nat) : PinIndex :=
  { title := titleBytes s
    sequence_number := seqNumber s
    header_offsets := headerOffsetsOf s
    sequence_offsets := seqOffsetsOf s }

/-- The `split_headers` mode: the source compares the parameter with the
string `'space'`; any other value (documented as `'none'`) leaves strings
intact. -/
inductive SplitMode where
  | space
  | nosplit
deriving DecidableEq

/-- One element appended to the result list `r` of `_vs_to_str`: with split
mode `none` (`nosplit`) a decoded string (`r.append(vs)`), with split mode
`space` the list of its space-separated tokens (`r.append(vs.split(' '))` —
note the source appends the token list itself as a single element). -/
inductive VsItem where
  | str (cs : List Nat)
  | strs (css : List (List Nat))
deriving DecidableEq

/-- Failure modes of `_vs_to_str`:
`indexError start` — `s[start+1]` is out of range (tag is the last byte);
`unicodeError start` — short-form payload fails ASCII decoding: the
`UnicodeDecodeError` is raised outside any `try` and propagates uncaught;
`diagnosed` — long-form payload fails ASCII decoding: the source prints the
blob, `len_len`, `str_len`, `len(s)` and `start`, then calls `quit()`;
`fuelOut` — recursion fuel exhausted (proved unreachable below). -/
inductive VsError where
  | indexError (start : Nat)
  | unicodeError (start : Nat)
  | diagnosed (blob : List Nat) (lenLen strLen blobLen start : Nat)
  | fuelOut
deriving DecidableEq

/-- Whether a `VsError` carries the printed diagnostic payload. -/
def isDiagnosed : VsError → Bool
  | VsError.diagnosed _ _ _ _ _ => true
  | _ => false

/-- The length-descriptor logic of `_vs_to_str` at a tag position `start`
(lines 167-175): `lenLen`/`strLen` are the source's `len_len`/`str_len`,
`payload` the sliced string bytes, `nextLooked` the updated scan cursor
`start + len_len + str_len + 2`. -/
structure VsParsed where
  lenLen : Nat
  strLen : Nat
  payload : List Nat
  nextLooked : Nat
deriving DecidableEq

/-- Parse the length descriptor and payload of the field whose tag byte sits
at `start` (the byte `s[start+1]` is the descriptor).  Short form
(`not s[start+1] >> 7`): `len_len = 1`, `str_len` is the descriptor itself,
payload is `s[start+2 : start+len_len+str_len+1]`.  Long form: `len_len` is
the descriptor's low 7 bits, `str_len` the big-endian value of
`s[start+2 : start+len_len+2]`, payload `s[start+len_len+2 : start+len_len+str_len+2]`. -/
def parseField (s : List Nat) (start : Nat) : VsParsed :=
  let d := s.getD (start + 1) 0
  if d >>> 7 = 0 then
    { lenLen := 1
      strLen := d
      payload := (s.drop (start + 2)).take d
      nextLooked := start + 1 + d + 2 }
  else
    let L := d &&& 127
    let n := beValue ((s.drop (start + 2)).take L)
    { lenLen := L
      strLen := n
      payload := (s.drop (start + 2 + L)).take n
      nextLooked := start + L + n + 2 }

/-- Scan helper for `bytes.find(b'\x1A', looked)`: first index (counted from
`idx`) holding byte `0x1A`. -/
def findTagAux : List Nat → Nat → Option Nat
  | [], _ => Option.none
  | b :: rest, idx => if b = 26 then some idx else findTagAux rest (idx + 1)

/-- `s.find(b'\x1A', looked)`: index of the first tag byte at or after
`looked`, or none (the source's `-1`). -/
def findTagFrom (s : List Nat) (looked : Nat) : Option Nat :=
  findTagAux (s.drop looked) looked

/-- `'BL_ORD_ID'` as ASCII bytes. -/
def bl_ord_id : List Nat := [66, 76, 95, 79, 82, 68, 95, 73, 68]

/-- Python `str.split(' ')` on byte strings: split at every single space
(byte 32), keeping empty chunks; `''.split(' ') = ['']`. -/
def pySplit (sep : Nat) : List Nat → List (List Nat)
  | [] => [[]]
  | c :: rest =>
    if c = sep then [] :: pySplit sep rest
    else
      match pySplit sep rest with
      | [] => [[c]]
      | t :: ts => (c :: t) :: ts

/-- The `while True` loop of `_vs_to_str` (lines 163-188), with explicit
fuel.  Each iteration: find the next tag byte from `looked`; read the
descriptor byte (raising `IndexError` when out of range); slice the payload;
decode it as ASCII (failure is `unicodeError` in short form — uncaught — and
the `diagnosed` print-and-quit in long form); advance `looked` to
`start + len_len + str_len + 2`; drop the string when it contains
`BL_ORD_ID`; otherwise append it (split first in `space` mode).  Fuel 0 with
a remaining tag is `fuelOut`, proved unreachable for the fuel used by
`vsToStr`. -/
def vsLoop (s : List Nat) (m : SplitMode) : Nat → Nat → Except VsError (List VsItem)
  | 0, looked =>
    match findTagFrom s looked with
    | Option.none => Except.ok []
    | some _ => Except.error VsError.fuelOut
  | Nat.succ fuel, looked =>
    match findTagFrom s looked with
    | Option.none => Except.ok []
    | some start =>
      if start + 1 < s.length then
        let f := parseField s start
        if ∀ b ∈ f.payload, b < 128 then
          if bl_ord_id <:+: f.payload then vsLoop s m fuel f.nextLooked
          else
            match vsLoop s m fuel f.nextLooked with
            | Except.error e => Except.error e
            | Except.ok rest =>
              Except.ok
                ((match m with
                  | SplitMode.space => VsItem.strs (pySplit 32 f.payload)
                  | SplitMode.nosplit => VsItem.str f.payload) :: rest)
        else if s.getD (start + 1) 0 >>> 7 = 0 then
          Except.error (VsError.unicodeError start)
        else Except.error (VsError.diagnosed s f.lenLen f.strLen s.length start)
      else Except.error (VsError.indexError start)

/-- `_vs_to_str(s, split)`: run the scan loop from cursor 0 with fuel
`s.length + 1` (shown sufficient by `vsLoop_ne_fuelOut`). -/
def vsToStr (s : List Nat) (m : SplitMode) : Except VsError (List VsItem) :=
  vsLoop s m (s.length + 1) 0

instance {ε : Type _} {α : Type _} [DecidableEq ε] [DecidableEq α] :
    DecidableEq (Except ε α) := fun a b =>
  match a, b with
  | Except.ok x, Except.ok y => decidable_of_iff (x = y) (by simp)
  | Except.ok _, Except.error _ => isFalse (by simp)
  | Except.error _, Except.ok _ => isFalse (by simp)
  | Except.error x, Except.error y => decidable_of_iff (x = y) (by simp)

/-- An output element is clean when none of its strings contains the
reserved ordinal marker `BL_ORD_ID` as a substring. -/
def ItemClean : VsItem → Prop
  | VsItem.str cs => ¬ bl_ord_id <:+: cs
  | VsItem.strs css => ∀ cs ∈ css, ¬ bl_ord_id <:+: cs

instance (it : VsItem) : Decidable (ItemClean it) := by
  cases it <;> unfold ItemClean <;> infer_instance

example : vsToStr [26, 2, 97, 98] SplitMode.nosplit = Except.ok [VsItem.str [97, 98]] := by
  decide

example : parsePin [] = ⟨[], 0, [], []⟩ := by decide

/-- Failure modes of the handle-level operations, one constructor per
distinct Python exception:
`vs e` — a `_vs_to_str` failure;
`keyError` — `self.__header_dict[seqid]` with a missing key;
`typeError` — `self.__header_dict[a] = ...` with an unhashable list key
(split mode `space` makes `_vs_to_str` return lists);
`typeErrorNone` — `__get_seq_by_position(None)` subscripting `None` after a
lazy lookup miss;
`unboundLocal` — `__synonyms` returning `syn` without any assignment;
`indexError` — `PROTEIN_CODE[a]` with a byte outside the 28-symbol
alphabet, or `ids[0]` on an empty identifier list;
`unicodeDecode` — `.decode(encoding='ascii')` failing in `__next__`. -/
inductive PyError where
  | vs (e : VsError)
  | keyError
  | typeError
  | typeErrorNone
  | unboundLocal
  | indexError
  | unicodeDecode
deriving DecidableEq

/-- The state of an opened `BinaryBlast` handle: the `.psq` and `.phr` byte
streams, the two offset-entry tables built at construction (well-formed
indexes yield natural starts and lengths), the constructor flags, and the
eager `self.__header_dict` as an assignment list (later assignments win, as
in a Python dict). -/
structure BlastDB where
  psq : List Nat
  phr : List Nat
  headerOffsets : List (Nat × Nat)
  sequenceOffsets : List (Nat × Nat)
  loadHeaders : Bool
  split : SplitMode
  headerDict : List (List Nat × (Nat × Nat))
deriving DecidableEq

/-- The header blob of record `j`: `self.headers.seek(hoff[j][0])` then
`read(hoff[j][1])`. -/
def blobAt (db : BlastDB) (j : Nat) : List Nat :=
  (db.phr.drop (db.headerOffsets.getD j (0, 0)).1).take (db.headerOffsets.getD j (0, 0)).2

/-- Python dict lookup over an assignment list: the last assignment to the
key wins; `none` when the key was never assigned. -/
def dictLookup (entries : List (List Nat × (Nat × Nat))) (k : List Nat) :
    Option (Nat × Nat) :=
  entries.foldl (fun acc kv => if kv.1 = k then some kv.2 else acc) Option.none

/-- Python dict key view: first occurrence of each key, in insertion
order. -/
def firstDedupAux : List (List Nat) → List (List Nat) → List (List Nat)
  | [], _ => []
  | k :: rest, seen =>
    if k ∈ seen then firstDedupAux rest seen else k :: firstDedupAux rest (k :: seen)

/-- `dict.keys()` of an assignment list. -/
def dictKeys (entries : List (List Nat × (Nat × Nat))) : List (List Nat) :=
  firstDedupAux (entries.map Prod.fst) []

/-- The inner loop of `__read_headers`: `for a in s: self.__header_dict[a] = v`.
A `VsItem.strs` element is a Python list used as a dict key and raises
`TypeError: unhashable type`. -/
def insertItems : List VsItem → (Nat × Nat) → List (List Nat × (Nat × Nat)) →
    Except PyError (List (List Nat × (Nat × Nat)))
  | [], _, acc => Except.ok acc
  | VsItem.str k :: rest, v, acc => insertItems rest v (acc ++ [(k, v)])
  | VsItem.strs _ :: _, _, _ => Except.error PyError.typeError

/-- The outer loop of `__read_headers` over record indices `j`, carried with
remaining-iteration fuel `rem` (started at the table length). -/
def buildDictAux (db : BlastDB) : Nat → Nat → List (List Nat × (Nat × Nat)) →
    Except PyError (List (List Nat × (Nat × Nat)))
  | _, 0, acc => Except.ok acc
  | j, Nat.succ rem, acc =>
    match vsToStr (blobAt db j) db.split with
    | Except.error e => Except.error (PyError.vs e)
    | Except.ok its =>
      match insertItems its (db.sequenceOffsets.getD j (0, 0)) acc with
      | Except.error e => Except.error e
      | Except.ok acc2 => buildDictAux db (j + 1) rem acc2

/-- `__read_headers`: build the eager identifier-to-position assignment
list over all `len(self.__header_offsets)` records. -/
def buildHeaderDict (db : BlastDB) : Except PyError (List (List Nat × (Nat × Nat))) :=
  buildDictAux db 0 db.headerOffsets.length []

/-- The lazy scan of `__get_position` (lines 87-91): from record `j` with
`rem` records remaining, return the sequence offset entry of the first
header blob containing `seqid` as a byte substring. -/
def lazyScan (db : BlastDB) (seqid : List Nat) : Nat → Nat → Option (Nat × Nat)
  | _, 0 => Option.none
  | j, Nat.succ rem =>
    if seqid <:+: blobAt db j then some (db.sequenceOffsets.getD j (0, 0))
    else lazyScan db seqid (j + 1) rem

/-- The full lazy scan over all records; `none` models the implicit
`return None` after the loop. -/
def lazyFirstMatch (db : BlastDB) (seqid : List Nat) : Option (Nat × Nat) :=
  lazyScan db seqid 0 db.headerOffsets.length

/-- `__get_position`: eager mode is `self.__header_dict[seqid]` (raising
`KeyError` on a miss), lazy mode is the substring scan (returning `None` on
a miss). -/
def getPosition (db : BlastDB) (seqid : List Nat) :
    Except PyError (Option (Nat × Nat)) :=
  if db.loadHeaders then
    match dictLookup db.headerDict seqid with
    | some v => Except.ok (some v)
    | Option.none => Except.error PyError.keyError
  else Except.ok (lazyFirstMatch db seqid)

/-- The lazy scan of `__synonyms` (lines 103-107): every matching blob is
decoded at once and reassigns `syn`, so the last match wins; a decode
failure at any matching blob aborts immediately. -/
def synScan (db : BlastDB) (seqid : List Nat) :
    Nat → Nat → Option (List VsItem) → Except VsError (Option (List VsItem))
  | _, 0, acc => Except.ok acc
  | j, Nat.succ rem, acc =>
    if seqid <:+: blobAt db j then
      match vsToStr (blobAt db j) db.split with
      | Except.error e => Except.error e
      | Except.ok its => synScan db seqid (j + 1) rem (some its)
    else synScan db seqid (j + 1) rem acc

/-- Lazy `__synonyms`: `ok none` models the `UnboundLocalError` path where
no blob matched and `syn` was never assigned. -/
def synonymsLazy (db : BlastDB) (seqid : List Nat) :
    Except VsError (Option (List VsItem)) :=
  synScan db seqid 0 db.headerOffsets.length Option.none

/-- Eager `__synonyms`: the comprehension
`[a for a in keys if dict[a] == dict[seqid]]`; with a non-empty dict and a
missing `seqid`, evaluating `dict[seqid]` raises `KeyError`. -/
def synonymsEager (entries : List (List Nat × (Nat × Nat))) (seqid : List Nat) :
    Except PyError (List (List Nat)) :=
  match entries with
  | [] => Except.ok []
  | _ :: _ =>
    match dictLookup entries seqid with
    | Option.none => Except.error PyError.keyError
    | some v =>
      Except.ok ((dictKeys entries).filter (fun k => decide (dictLookup entries k = some v)))

/-- `__synonyms`, dispatching on `load_headers`; eager keys are strings and
are re-wrapped as `VsItem.str` for a common result type. -/
def synonymsOf (db : BlastDB) (seqid : List Nat) :
    Except PyError (Option (List VsItem)) :=
  if db.loadHeaders then
    match synonymsEager db.headerDict seqid with
    | Except.error e => Except.error e
    | Except.ok ks => Except.ok (some (ks.map VsItem.str))
  else
    match synonymsLazy db seqid with
    | Except.error e => Except.error (PyError.vs e)
    | Except.ok o => Except.ok o

/-- `PROTEIN_CODE`: the fixed 28-symbol residue alphabet. -/
def PROTEIN_CODE : List Char :=
  ['-', 'A', 'B', 'C', 'D', 'E', 'F', 'G', 'H', 'I', 'K', 'L', 'M',
   'N', 'P', 'Q', 'R', 'S', 'T', 'V', 'W', 'X', 'Y', 'Z', 'U', '*', 'O', 'J']

/-- `''.join(self.PROTEIN_CODE[a] for a in byte_seq)`: map each byte through
the alphabet table; a byte at or beyond 28 raises `IndexError`. -/
def proteinDecode (bs : List Nat) : Except PyError (List Char) :=
  if ∀ b ∈ bs, b < 28 then Except.ok (bs.map fun b => PROTEIN_CODE.getD b '-')
  else Except.error PyError.indexError

/-- `bytes.decode(encoding='ascii')`: each byte below 128 becomes the
character with that code; any other byte raises `UnicodeDecodeError`. -/
def asciiDecode (bs : List Nat) : Except PyError (List Char) :=
  if ∀ b ∈ bs, b < 128 then Except.ok (bs.map Char.ofNat)
  else Except.error PyError.unicodeDecode

/-- `__get_seq_by_position` (lines 110-118): seek the `.psq` stream to
`pos[0]`, read `pos[1]` bytes, translate through `PROTEIN_CODE`. -/
def getSeqByPosition (psq : List Nat) (pos : Nat × Nat) : Except PyError (List Char) :=
  proteinDecode ((psq.drop pos.1).take pos.2)

/-- The residue string built by `__next__` (lines 141-143): the same byte
range, but decoded as ASCII instead of translated through the alphabet. -/
def iterResidue (psq : List Nat) (pos : Nat × Nat) : Except PyError (List Char) :=
  asciiDecode ((psq.drop pos.1).take pos.2)

/-- The `SeqRecord` assembled by `get_seq`: residue characters, the
requested id, and the synonym list stored under `annotations['ids']`. -/
structure GetSeqRecord where
  seq : List Char
  id : List Nat
  ids : List VsItem
deriving DecidableEq

/-- The `SeqRecord` yielded by one `__next__` step: residue characters, the
decoded identifier items, and `ids[0]` as the record id. -/
structure IterRecord where
  seq : List Char
  ids : List VsItem
  id : VsItem
deriving DecidableEq

/-- `get_seq` (lines 120-131): position lookup, then
`__get_seq_by_position`, then `__synonyms`, in the source's evaluation
order. -/
def getSeq (db : BlastDB) (seqid : List Nat) : Except PyError GetSeqRecord :=
  match getPosition db seqid with
  | Except.error e => Except.error e
  | Except.ok Option.none => Except.error PyError.typeErrorNone
  | Except.ok (some p) =>
    match getSeqByPosition db.psq p with
    | Except.error e => Except.error e
    | Except.ok cs =>
      match synonymsOf db seqid with
      | Except.error e => Except.error e
      | Except.ok Option.none => Except.error PyError.unboundLocal
      | Except.ok (some its) => Except.ok { seq := cs, id := seqid, ids := its }

/-- One `__next__` step at cursor `j` (lines 138-151): read and
ASCII-decode the sequence bytes, decode the header blob, take `ids[0]`
(raising `IndexError` on an empty list) as the record id. -/
def iterRecord (db : BlastDB) (j : Nat) : Except PyError IterRecord :=
  match iterResidue db.psq (db.sequenceOffsets.getD j (0, 0)) with
  | Except.error e => Except.error e
  | Except.ok cs =>
    match vsToStr (blobAt db j) db.split with
    | Except.error e => Except.error (PyError.vs e)
    | Except.ok its =>
      match its with
      | [] => Except.error PyError.indexError
      | id0 :: _ => Except.ok { seq := cs, ids := its, id := id0 }

/-! ### Helper lemmas for the index parser -/

lemma readInts_length (s : List Nat) : ∀ (n p : Nat), (readInts s p n).length = n := by
  intro n
  induction n with
  | zero => intro p; rfl
  | succ n ih => intro p; simp [readInts, ih]

lemma offsetPairsH_length : ∀ (i : Nat) (l : List Nat),
    (offsetPairsH i l).length = l.length := by
  intro i l
  induction l generalizing i with
  | nil => rfl
  | cons a rest ih => simp [offsetPairsH, ih]

lemma offsetPairsS_length : ∀ (i : Nat) (l : List Nat),
    (offsetPairsS i l).length = l.length := by
  intro i l
  induction l generalizing i with
  | nil => rfl
  | cons a rest ih => simp [offsetPairsS, ih]

lemma offsetPairsH_getD : ∀ (l : List Nat) (i k : Nat), k < l.length →
    (offsetPairsH i l).getD k (0, 0) =
      (((i :: l).getD k 0 : Int),
        (((i :: l).getD (k + 1) 0 : Int) - ((i :: l).getD k 0 : Int))) := by
  intro l
  induction l with
  | nil => intro i k hk; simp at hk
  | cons a rest ih =>
    intro i k hk
    cases k with
    | zero => simp [offsetPairsH]
    | succ k =>
      have hk' : k < rest.length := by simpa using hk
      simpa [offsetPairsH, List.getD_cons_succ] using ih a k hk'

lemma offsetPairsS_getD : ∀ (l : List Nat) (i k : Nat), k < l.length →
    (offsetPairsS i l).getD k (0, 0) =
      (((i :: l).getD k 0 : Int),
        (((i :: l).getD (k + 1) 0 : Int) - ((i :: l).getD k 0 : Int) - 1)) := by
  intro l
  induction l with
  | nil => intro i k hk; simp at hk
  | cons a rest ih =>
    intro i k hk
    cases k with
    | zero => simp [offsetPairsS]
    | succ k =>
      have hk' : k < rest.length := by simpa using hk
      simpa [offsetPairsS, List.getD_cons_succ] using ih a k hk'

lemma headerCums_length (s : List Nat) : (headerCums s).length = seqNumber s + 1 :=
  readInts_length s _ _

lemma seqCums_length (s : List Nat) : (seqCums s).length = seqNumber s + 1 :=
  readInts_length s _ _

/-- The worked example of the spec: `T = 10`, title `testdb_01` plus one pad
byte, an empty timestamp, sequence count 2, cumulative header offsets
`[0, 20, 45]` and cumulative sequence offsets `[0, 31, 67]`. -/
def examplePin : List Nat :=
  [0, 0, 0, 0, 0, 0, 0, 0,
   0, 0, 0, 10,
   116, 101, 115, 116, 100, 98, 95, 48, 49, 0,
   0, 0, 0, 0,
   0, 0, 0, 2,
   0, 0, 0, 0, 0, 0, 0, 0, 0, 0, 0, 0,
   0, 0, 0, 0, 0, 0, 0, 20, 0, 0, 0, 45,
   0, 0, 0, 0, 0, 0, 0, 31, 0, 0, 0, 67]

/-- C1: for every index stream, the Index Parser produces exactly
`sequence_count` header offset entries and `sequence_count` sequence offset
entries; each table is read from `sequence_count + 1` stored 4-byte
big-endian cumulative offsets; the `k`-th header entry is `(i, a - i)` for
the consecutive cumulative offsets `i, a` at positions `k, k + 1`, and the
`k`-th sequence entry is `(i, a - i - 1)`; on the worked example stream
(`T = 10`, count 2, header cumulatives `[0, 20, 45]`, sequence cumulatives
`[0, 31, 67]`) the parser yields header entries `[(0, 20), (20, 25)]` and
sequence entries `[(0, 30), (31, 35)]`. -/
theorem C1_index_parsing (s : List Nat) (k : Nat) (hk : k < seqNumber s) :
    (parsePin s).header_offsets.length = (parsePin s).sequence_number ∧
    (parsePin s).sequence_offsets.length = (parsePin s).sequence_number ∧
    (headerCums s).length = seqNumber s + 1 ∧
    (seqCums s).length = seqNumber s + 1 ∧
    (parsePin s).header_offsets.getD k (0, 0) =
      (((headerCums s).getD k 0 : Int),
        ((headerCums s).getD (k + 1) 0 : Int) - ((headerCums s).getD k 0 : Int)) ∧
    (parsePin s).sequence_offsets.getD k (0, 0) =
      (((seqCums s).getD k 0 : Int),
        ((seqCums s).getD (k + 1) 0 : Int) - ((seqCums s).getD k 0 : Int) - 1) ∧
    titleLen examplePin = 10 ∧
    (parsePin examplePin).sequence_number = 2 ∧
    headerCums examplePin = [0, 20, 45] ∧
    seqCums examplePin = [0, 31, 67] ∧
    (parsePin examplePin).header_offsets = [(0, 20), (20, 25)] ∧
    (parsePin examplePin).sequence_offsets = [(0, 30), (31, 35)] := by
  obtain ⟨i, rest, hcons⟩ :
      ∃ i rest, headerCums s = i :: rest := by
    cases hc : headerCums s with
    | nil =>
      have := headerCums_length s
      rw [hc] at this
      simp at this
    | cons i rest => exact ⟨i, rest, rfl⟩
  obtain ⟨i2, rest2, hcons2⟩ :
      ∃ i2 rest2, seqCums s = i2 :: rest2 := by
    cases hc : seqCums s with
    | nil =>
      have := seqCums_length s
      rw [hc] at this
      simp at this
    | cons i2 rest2 => exact ⟨i2, rest2, rfl⟩
  have hlenH : rest.length = seqNumber s := by
    have := headerCums_length s
    rw [hcons] at this
    simpa using this
  have hlenS : rest2.length = seqNumber s := by
    have := seqCums_length s
    rw [hcons2] at this
    simpa using this
  refine ⟨?_, ?_, headerCums_length s, seqCums_length s, ?_, ?_, ?_, ?_, ?_, ?_, ?_, ?_⟩
  · show (headerOffsetsOf s).length = seqNumber s
    rw [headerOffsetsOf, hcons, offsetPairsH_length, hlenH]
  · show (seqOffsetsOf s).length = seqNumber s
    rw [seqOffsetsOf, hcons2, offsetPairsS_length, hlenS]
  · show (headerOffsetsOf s).getD k (0, 0) = _
    rw [headerOffsetsOf, hcons]
    rw [offsetPairsH_getD rest i k (hlenH ▸ hk)]
  · show (seqOffsetsOf s).getD k (0, 0) = _
    rw [seqOffsetsOf, hcons2]
    rw [offsetPairsS_getD rest2 i2 k (hlenS ▸ hk)]
  · decide
  · decide
  · decide
  · decide
  · decide
  · decide

/-- Witness for C1 at the worked example stream and entry index 0. -/
theorem C1_index_parsing_witness :
    0 < seqNumber examplePin ∧
    (parsePin examplePin).header_offsets.length = (parsePin examplePin).sequence_number ∧
    (parsePin examplePin).header_offsets.getD 0 (0, 0) =
      (((headerCums examplePin).getD 0 0 : Int),
        ((headerCums examplePin).getD 1 0 : Int) - ((headerCums examplePin).getD 0 0 : Int)) :=
  ⟨by decide, (C1_index_parsing examplePin 0 (by decide)).1,
    (C1_index_parsing examplePin 0 (by decide)).2.2.2.2.1⟩

lemma parseField_short (s : List Nat) (start : Nat)
    (h : s.getD (start + 1) 0 >>> 7 = 0) :
    parseField s start =
      { lenLen := 1
        strLen := s.getD (start + 1) 0
        payload := (s.drop (start + 2)).take (s.getD (start + 1) 0)
        nextLooked := start + 1 + s.getD (start + 1) 0 + 2 } := by
  simp only [parseField]
  rw [if_pos h]

lemma parseField_long (s : List Nat) (start : Nat)
    (h : s.getD (start + 1) 0 >>> 7 ≠ 0) :
    parseField s start =
      { lenLen := s.getD (start + 1) 0 &&& 127
        strLen := beValue ((s.drop (start + 2)).take (s.getD (start + 1) 0 &&& 127))
        payload := (s.drop (start + 2 + (s.getD (start + 1) 0 &&& 127))).take
          (beValue ((s.drop (start + 2)).take (s.getD (start + 1) 0 &&& 127)))
        nextLooked := start + (s.getD (start + 1) 0 &&& 127) +
          beValue ((s.drop (start + 2)).take (s.getD (start + 1) 0 &&& 127)) + 2 } := by
  simp only [parseField]
  rw [if_neg h]

/-- C2: at a tag position `start`, the byte after the tag is a length
descriptor.  High bit 0: the descriptor itself is the payload length and
the payload begins immediately after the descriptor (at `start + 2`).  High
bit 1: the low 7 bits give `L`, the next `L` bytes are the big-endian
payload length, and the payload begins after those `L` bytes (at
`start + 2 + L`).  In particular a long-form field with descriptor `0x82`
followed by length bytes `0x01 0x00` reads exactly the 256 payload bytes
starting immediately after those two length bytes. -/
theorem C2_descriptor (s : List Nat) (start : Nat) (p rest : List Nat)
    (hp : p.length = 256) :
    (s.getD (start + 1) 0 >>> 7 = 0 →
      parseField s start =
        { lenLen := 1
          strLen := s.getD (start + 1) 0
          payload := (s.drop (start + 2)).take (s.getD (start + 1) 0)
          nextLooked := start + 1 + s.getD (start + 1) 0 + 2 }) ∧
    (s.getD (start + 1) 0 >>> 7 ≠ 0 →
      (parseField s start).lenLen = s.getD (start + 1) 0 &&& 127 ∧
      (parseField s start).strLen =
        beValue ((s.drop (start + 2)).take (s.getD (start + 1) 0 &&& 127)) ∧
      (parseField s start).payload =
        (s.drop (start + 2 + (s.getD (start + 1) 0 &&& 127))).take
          ((parseField s start).strLen)) ∧
    (parseField ([26, 130, 1, 0] ++ p ++ rest) 0).payload = p ∧
    (parseField ([26, 130, 1, 0] ++ p ++ rest) 0).strLen = 256 ∧
    (parseField ([26, 130, 1, 0] ++ p ++ rest) 0).nextLooked = 260 := by
  have hd : ([26, 130, 1, 0] ++ p ++ rest).getD (0 + 1) 0 = 130 := rfl
  have hne : ([26, 130, 1, 0] ++ p ++ rest).getD (0 + 1) 0 >>> 7 ≠ 0 := by
    rw [hd]; decide
  have hand : (130 : Nat) &&& 127 = 2 := by decide
  have hslice : (([26, 130, 1, 0] ++ p ++ rest).drop (0 + 2)).take 2 = [1, 0] := rfl
  have hbe : beValue [1, 0] = 256 := by decide
  have hpf : parseField ([26, 130, 1, 0] ++ p ++ rest) 0 =
      { lenLen := 2, strLen := 256, payload := (p ++ rest).take 256,
        nextLooked := 260 } := by
    rw [parseField_long _ 0 hne, hd, hand, hslice, hbe]
    rfl
  refine ⟨fun h => parseField_short s start h, ?_, ?_, ?_, ?_⟩
  · intro h
    rw [parseField_long s start h]
    exact ⟨rfl, rfl, rfl⟩
  · rw [hpf]
    show (p ++ rest).take 256 = p
    rw [← hp]
    exact List.take_left p rest
  · rw [hpf]
  · rw [hpf]

/-- Witness for C2: with a concrete 256-byte payload after descriptor
`0x82 0x01 0x00`, the parsed payload is exactly those 256 bytes. -/
theorem C2_descriptor_witness :
    (parseField ([26, 130, 1, 0] ++ List.replicate 256 65 ++ []) 0).payload
      = List.replicate 256 65 ∧
    (parseField ([26, 130, 1, 0] ++ List.replicate 256 65 ++ []) 0).strLen = 256 :=
  ⟨(C2_descriptor [] 0 (List.replicate 256 65) []
      (by rw [List.length_replicate])).2.2.1,
   (C2_descriptor [] 0 (List.replicate 256 65) []
      (by rw [List.length_replicate])).2.2.2.1⟩

lemma drop_cons_of_lt (l : List Nat) (q : Nat) (h : q < l.length) :
    l.drop q = l.getD q 0 :: l.drop (q + 1) := by
  rw [List.drop_eq_getElem_cons h, List.getD_eq_getElem l 0 h]

lemma findTagFrom_self (s : List Nat) (q : Nat) (hq : q < s.length)
    (htag : s.getD q 0 = 26) : findTagFrom s q = some q := by
  unfold findTagFrom
  rw [drop_cons_of_lt s q hq, htag]
  simp [findTagAux]

/-- C3 counterexample: on the blob `1A 01 'A' 1A 01 'B'` the decoder
returns only the first field.  The first payload is the single byte at
index 2, so the tag at index 3 sits immediately after it, yet the scan
cursor is advanced to 4 and the second field is never decoded. -/
theorem C3_counterexample :
    vsToStr [26, 1, 65, 26, 1, 66] SplitMode.nosplit = Except.ok [VsItem.str [65]] ∧
    ¬ VsItem.str [66] ∈ [VsItem.str [65]] := by
  decide

/-- C3 amended: for a long-form field the scan resumes exactly at the
position immediately after the last payload byte
(`start + 2 + len_len + str_len`), where an adjacent tag byte would be
found (`findTagFrom` at a tag position returns that position); for a
short-form field the scan instead resumes one byte later
(`start + 2 + str_len + 1`), skipping the position immediately after the
payload, so a tag byte located there is missed. -/
theorem C3_amended (s : List Nat) (start q : Nat) (hq : q < s.length)
    (htag : s.getD q 0 = 26) :
    (s.getD (start + 1) 0 >>> 7 ≠ 0 →
      (parseField s start).nextLooked =
        start + 2 + (parseField s start).lenLen + (parseField s start).strLen) ∧
    (s.getD (start + 1) 0 >>> 7 = 0 →
      (parseField s start).nextLooked =
        (start + 2 + (parseField s start).strLen) + 1) ∧
    findTagFrom s q = some q := by
  refine ⟨?_, ?_, findTagFrom_self s q hq htag⟩
  · intro h
    rw [parseField_long s start h]
    dsimp only
    omega
  · intro h
    rw [parseField_short s start h]
    dsimp only
    omega

/-- Witness for C3 amended: on `1A 01 'A' 1A` the short-form scan cursor
lands at 4 (one past the tag at 3), and a tag search started at 3 does find
the tag at 3. -/
theorem C3_amended_witness :
    (parseField [26, 1, 65, 26] 0).nextLooked = 4 ∧
    findTagFrom [26, 1, 65, 26] 3 = some 3 := by
  have h := C3_amended [26, 1, 65, 26] 0 3 (by decide) (by decide)
  refine ⟨?_, h.2.2⟩
  rw [h.2.1 (by decide)]
  decide

/-! ### Helper lemmas for the visible-string decoder -/

lemma isInfix_cons {a : Nat} {l1 l2 : List Nat} (h : l1 <:+: l2) :
    l1 <:+: a :: l2 := by
  obtain ⟨u, v, rfl⟩ := h
  exact ⟨a :: u, v, by simp⟩

/-- Structure of `pySplit`: it is always non-empty, its head is a prefix of
the input and every later chunk is a contiguous substring of the input. -/
lemma pySplit_decomp (sep : Nat) :
    ∀ l : List Nat, ∃ t ts, pySplit sep l = t :: ts ∧ t <+: l ∧
      ∀ u ∈ ts, u <:+: l := by
  intro l
  induction l with
  | nil => exact ⟨[], [], rfl, List.nil_prefix, by simp⟩
  | cons c rest ih =>
    obtain ⟨t, ts, heq, hpre, hinf⟩ := ih
    by_cases hc : c = sep
    · refine ⟨[], pySplit sep rest, ?_, List.nil_prefix, ?_⟩
      · simp only [pySplit]
        rw [if_pos hc]
      · intro u hu
        rw [heq] at hu
        rcases List.mem_cons.mp hu with rfl | hu'
        · exact isInfix_cons hpre.isInfix
        · exact isInfix_cons (hinf u hu')
    · refine ⟨c :: t, ts, ?_, ?_, ?_⟩
      · simp only [pySplit]
        rw [if_neg hc, heq]
      · exact List.cons_prefix_cons.mpr ⟨rfl, hpre⟩
      · intro u hu
        exact isInfix_cons (hinf u hu)

/-- Every chunk produced by `pySplit` is a contiguous substring of the
input. -/
lemma mem_pySplit_sub (sep : Nat) (l u : List Nat) (hu : u ∈ pySplit sep l) :
    u <:+: l := by
  obtain ⟨t, ts, heq, hpre, hinf⟩ := pySplit_decomp sep l
  rw [heq] at hu
  rcases List.mem_cons.mp hu with rfl | hu'
  · exact hpre.isInfix
  · exact hinf u hu'

/-- The item appended for a marker-free payload is clean in either split
mode: splitting cannot create the marker inside a token. -/
lemma itemClean_of_payload (m : SplitMode) (payload : List Nat)
    (h : ¬ bl_ord_id <:+: payload) :
    ItemClean
      (match m with
        | SplitMode.space => VsItem.strs (pySplit 32 payload)
        | SplitMode.nosplit => VsItem.str payload) := by
  cases m
  · intro cs hcs hmark
    exact h (hmark.trans (mem_pySplit_sub 32 payload cs hcs))
  · exact h

/-- Every element of a successful `vsLoop` result is clean: the source
tests `'BL_ORD_ID' in vs` before appending, and space-splitting only
shrinks strings. -/
lemma vsLoop_clean (s : List Nat) (m : SplitMode) :
    ∀ (fuel looked : Nat) (its : List VsItem),
      vsLoop s m fuel looked = Except.ok its → ∀ it ∈ its, ItemClean it := by
  intro fuel
  induction fuel with
  | zero =>
    intro looked its h it hit
    simp only [vsLoop] at h
    split at h
    · cases h
      simp at hit
    · cases h
  | succ fuel ih =>
    intro looked its h it hit
    simp only [vsLoop] at h
    split at h
    · cases h
      simp at hit
    · split at h
      · split at h
        · split at h
          · exact ih _ _ h it hit
          · split at h
            · cases h
            · rename_i rest hrec
              cases h
              rcases List.mem_cons.mp hit with rfl | hit'
              · rename_i hall hmark _
                exact itemClean_of_payload m _ hmark
              · exact ih _ _ hrec it hit'
        · split at h
          · cases h
          · cases h
      · cases h

lemma findTagAux_ge : ∀ (l : List Nat) (idx r : Nat),
    findTagAux l idx = some r → idx ≤ r := by
  intro l
  induction l with
  | nil => intro idx r h; cases h
  | cons b rest ih =>
    intro idx r h
    simp only [findTagAux] at h
    by_cases hb : b = 26
    · rw [if_pos hb] at h
      cases h
      exact le_refl _
    · rw [if_neg hb] at h
      have := ih (idx + 1) r h
      omega

lemma findTagFrom_ge (s : List Nat) (looked start : Nat)
    (h : findTagFrom s looked = some start) : looked ≤ start :=
  findTagAux_ge (s.drop looked) looked start h

lemma parseField_nextLooked_ge (s : List Nat) (start : Nat) :
    start + 2 ≤ (parseField s start).nextLooked := by
  by_cases h : s.getD (start + 1) 0 >>> 7 = 0
  · rw [parseField_short s start h]
    dsimp only
    omega
  · rw [parseField_long s start h]
    dsimp only
    omega

/-- Soundness of the fuel used by `vsToStr`: the scan cursor advances by at
least 2 per iteration, so fuel `s.length + 1` can never run out. -/
lemma vsLoop_ne_fuelOut (s : List Nat) (m : SplitMode) :
    ∀ (fuel looked : Nat), s.length + 1 ≤ 2 * fuel + looked →
      vsLoop s m fuel looked ≠ Except.error VsError.fuelOut := by
  intro fuel
  induction fuel with
  | zero =>
    intro looked hb
    have hdrop : s.drop looked = [] := List.drop_eq_nil_of_le (by omega)
    simp only [vsLoop, findTagFrom, hdrop, findTagAux]
    exact fun h => Except.noConfusion h
  | succ fuel ih =>
    intro looked hb
    simp only [vsLoop]
    cases hf : findTagFrom s looked with
    | none =>
      simp only [hf]
      exact fun h => Except.noConfusion h
    | some start =>
      simp only [hf]
      have hls : looked ≤ start := findTagFrom_ge s looked start hf
      have hnl := parseField_nextLooked_ge s start
      by_cases hidx : start + 1 < s.length
      · rw [if_pos hidx]
        by_cases hall : ∀ b ∈ (parseField s start).payload, b < 128
        · rw [if_pos hall]
          by_cases hmark : bl_ord_id <:+: (parseField s start).payload
          · rw [if_pos hmark]
            exact ih _ (by omega)
          · rw [if_neg hmark]
            cases hrec : vsLoop s m fuel (parseField s start).nextLooked with
            | error e =>
              intro h
              injection h with h2
              have := ih (parseField s start).nextLooked (by omega)
              rw [hrec] at this
              exact this (by rw [h2])
            | ok rest =>
              exact fun h => Except.noConfusion h
        · rw [if_neg hall]
          by_cases hd : s.getD (start + 1) 0 >>> 7 = 0
          · rw [if_pos hd]
            intro h
            injection h with h2
            exact VsError.noConfusion h2
          · rw [if_neg hd]
            intro h
            injection h with h2
            exact VsError.noConfusion h2
      · rw [if_neg hidx]
        intro h
        injection h with h2
        exact VsError.noConfusion h2

/-- `_vs_to_str` terminates on every input: the fuel never runs out. -/
lemma vsToStr_ne_fuelOut (s : List Nat) (m : SplitMode) :
    vsToStr s m ≠ Except.error VsError.fuelOut :=
  vsLoop_ne_fuelOut s m (s.length + 1) 0 (by omega)

lemma insertItems_clean : ∀ (its : List VsItem) (v : Nat × Nat)
    (acc acc2 : List (List Nat × (Nat × Nat))),
    (∀ kv ∈ acc, ¬ bl_ord_id <:+: kv.1) → (∀ it ∈ its, ItemClean it) →
    insertItems its v acc = Except.ok acc2 →
    ∀ kv ∈ acc2, ¬ bl_ord_id <:+: kv.1 := by
  intro its
  induction its with
  | nil =>
    intro v acc acc2 hacc _ h
    cases h
    exact hacc
  | cons it rest ih =>
    intro v acc acc2 hacc hclean h
    cases it with
    | str k =>
      simp only [insertItems] at h
      refine ih v (acc ++ [(k, v)]) acc2 ?_
        (fun u hu => hclean u (List.mem_cons_of_mem _ hu)) h
      intro kv hkv
      rcases List.mem_append.mp hkv with hkv1 | hkv2
      · exact hacc kv hkv1
      · have hkv3 : kv = (k, v) := by simpa using hkv2
        subst hkv3
        exact hclean (VsItem.str k) (List.mem_cons_self _ _)
    | strs css =>
      simp only [insertItems] at h
      cases h

lemma buildDictAux_clean (db : BlastDB) : ∀ (rem j : Nat)
    (acc entries : List (List Nat × (Nat × Nat))),
    (∀ kv ∈ acc, ¬ bl_ord_id <:+: kv.1) →
    buildDictAux db j rem acc = Except.ok entries →
    ∀ kv ∈ entries, ¬ bl_ord_id <:+: kv.1 := by
  intro rem
  induction rem with
  | zero =>
    intro j acc entries hacc h
    cases h
    exact hacc
  | succ rem ih =>
    intro j acc entries hacc h
    simp only [buildDictAux] at h
    cases hvs : vsToStr (blobAt db j) db.split with
    | error e => simp only [hvs] at h; cases h
    | ok its =>
      simp only [hvs] at h
      cases hins : insertItems its (db.sequenceOffsets.getD j (0, 0)) acc with
      | error e => simp only [hins] at h; cases h
      | ok acc2 =>
        simp only [hins] at h
        exact ih (j + 1) acc2 entries
          (insertItems_clean its _ acc acc2 hacc
            (vsLoop_clean _ _ _ 0 its hvs) hins) h

lemma synScan_clean (db : BlastDB) (seqid : List Nat) : ∀ (rem j : Nat)
    (acc out : Option (List VsItem)),
    (∀ its0, acc = some its0 → ∀ it ∈ its0, ItemClean it) →
    synScan db seqid j rem acc = Except.ok out →
    ∀ its, out = some its → ∀ it ∈ its, ItemClean it := by
  intro rem
  induction rem with
  | zero =>
    intro j acc out hacc h its hout it hit
    cases h
    exact hacc its hout it hit
  | succ rem ih =>
    intro j acc out hacc h its hout
    simp only [synScan] at h
    by_cases hm : seqid <:+: blobAt db j
    · rw [if_pos hm] at h
      cases hvs : vsToStr (blobAt db j) db.split with
      | error e => simp only [hvs] at h; cases h
      | ok its2 =>
        simp only [hvs] at h
        refine ih (j + 1) (some its2) out ?_ h its hout
        intro its0 heq
        cases heq
        exact vsLoop_clean _ _ _ 0 _ hvs
    · rw [if_neg hm] at h
      exact ih (j + 1) acc out hacc h its hout

lemma mem_firstDedupAux : ∀ (l seen : List (List Nat)) (k : List Nat),
    k ∈ firstDedupAux l seen → k ∈ l := by
  intro l
  induction l with
  | nil =>
    intro seen k h
    simp [firstDedupAux] at h
  | cons a rest ih =>
    intro seen k h
    simp only [firstDedupAux] at h
    by_cases ha : a ∈ seen
    · rw [if_pos ha] at h
      exact List.mem_cons_of_mem _ (ih seen k h)
    · rw [if_neg ha] at h
      rcases List.mem_cons.mp h with rfl | h2
      · exact List.mem_cons_self _ _
      · exact List.mem_cons_of_mem _ (ih (a :: seen) k h2)

/-- C6: no identifier string handed back to a caller contains the reserved
ordinal marker `BL_ORD_ID`: every element of a successful decoder output is
clean, every key of the eager identifier-to-position map is clean, every
lazy synonym list is clean, every eager synonym list (computed over a built
map) is clean, and the identifier list and record id of every iterator
record are clean. -/
theorem C6_no_ordinal_marker (db : BlastDB) (blob seqid : List Nat) (m : SplitMode)
    (its : List VsItem) (h : vsToStr blob m = Except.ok its) :
    (∀ it ∈ its, ItemClean it) ∧
    (∀ entries, buildHeaderDict db = Except.ok entries →
      ∀ kv ∈ entries, ¬ bl_ord_id <:+: kv.1) ∧
    (∀ syn, synonymsLazy db seqid = Except.ok (some syn) →
      ∀ it ∈ syn, ItemClean it) ∧
    (∀ entries ks, buildHeaderDict db = Except.ok entries →
      synonymsEager entries seqid = Except.ok ks →
      ∀ k ∈ ks, ¬ bl_ord_id <:+: k) ∧
    (∀ j sr, iterRecord db j = Except.ok sr →
      (∀ it ∈ sr.ids, ItemClean it) ∧ ItemClean sr.id) := by
  refine ⟨vsLoop_clean blob m _ 0 its h, ?_, ?_, ?_, ?_⟩
  · intro entries hb
    exact buildDictAux_clean db _ 0 [] entries (by simp) hb
  · intro syn hs
    refine synScan_clean db seqid _ 0 Option.none (some syn) ?_ hs syn rfl
    intro its0 heq
    cases heq
  · intro entries ks hb hse k hk
    have hclean := buildDictAux_clean db _ 0 [] entries (by simp) hb
    cases entries with
    | nil =>
      cases hse
      simp at hk
    | cons e0 erest =>
      simp only [synonymsEager] at hse
      cases hl : dictLookup (e0 :: erest) seqid with
      | none => simp only [hl] at hse; cases hse
      | some v =>
        simp only [hl] at hse
        cases hse
        have hk2 : k ∈ dictKeys (e0 :: erest) := List.mem_of_mem_filter hk
        have hk3 : k ∈ (e0 :: erest).map Prod.fst := mem_firstDedupAux _ [] k hk2
        obtain ⟨kv, hkv, rfl⟩ := List.mem_map.mp hk3
        exact hclean kv hkv
  · intro j sr hi
    simp only [iterRecord] at hi
    cases hres : iterResidue db.psq (db.sequenceOffsets.getD j (0, 0)) with
    | error e => simp only [hres] at hi; cases hi
    | ok cs =>
      simp only [hres] at hi
      cases hvs : vsToStr (blobAt db j) db.split with
      | error e => simp only [hvs] at hi; cases hi
      | ok its2 =>
        simp only [hvs] at hi
        cases its2 with
        | nil => exact Except.noConfusion hi
        | cons id0 itsr =>
          cases hi
          constructor
          · exact vsLoop_clean _ _ _ 0 _ hvs
          · exact vsLoop_clean _ _ _ 0 _ hvs id0 (List.mem_cons_self _ _)

/-- A concrete lazy handle over one record whose header blob holds the
single identifier `ab`. -/
def dbW6 : BlastDB :=
  { psq := [1, 0], phr := [26, 2, 97, 98], headerOffsets := [(0, 4)],
    sequenceOffsets := [(0, 1)], loadHeaders := false,
    split := SplitMode.nosplit, headerDict := [] }

/-- Witness for C6 at a concrete decode: the single decoded identifier of
`dbW6` is clean. -/
theorem C6_no_ordinal_marker_witness : ItemClean (VsItem.str [97, 98]) :=
  (C6_no_ordinal_marker dbW6 [26, 2, 97, 98] [97] SplitMode.nosplit
    [VsItem.str [97, 98]] (by decide)).1 (VsItem.str [97, 98]) (by decide)

/-- `Except.isOk` as a plain boolean, used to state that an operation did
not return normally. -/
def exceptIsOk {ε : Type _} {α : Type _} : Except ε α → Bool
  | Except.ok _ => true
  | Except.error _ => false

/-- The example header blob `b'\x1A\x09lcl|seq1\x1A\x09BL_ORD_ID'`. -/
def c4blob : List Nat :=
  [26, 9, 108, 99, 108, 124, 115, 101, 113, 49,
   26, 9, 66, 76, 95, 79, 82, 68, 95, 73, 68]

/-- C4 counterexample: the blob's first descriptor is `0x09` but only 8
payload bytes (`lcl|seq1`) precede the second tag, so the 9-byte short-form
payload absorbs the tag byte `0x1A`: the decoder returns
`['lcl|seq1\x1a']`, not `['lcl|seq1']`. -/
theorem C4_counterexample :
    vsToStr c4blob SplitMode.nosplit =
      Except.ok [VsItem.str [108, 99, 108, 124, 115, 101, 113, 49, 26]] ∧
    [VsItem.str [108, 99, 108, 124, 115, 101, 113, 49, 26]] ≠
      [VsItem.str [108, 99, 108, 124, 115, 101, 113, 49]] := by
  decide

/-- C4 amended: decoding the blob with split mode `none` yields exactly one
identifier, the 9-byte string `lcl|seq1\x1a` (the second tag byte is
absorbed into the payload, so the ordinal-marker field is never decoded),
and that identifier does not contain `BL_ORD_ID`. -/
theorem C4_amended_eval :
    vsToStr c4blob SplitMode.nosplit =
      Except.ok [VsItem.str [108, 99, 108, 124, 115, 101, 113, 49, 26]] ∧
    ItemClean (VsItem.str [108, 99, 108, 124, 115, 101, 113, 49, 26]) := by
  decide

/-- A concrete eager handle over one record whose header blob is
`b'\x1A\x03a b'`, opened with the default `split_headers='space'`. -/
def dbC5 : BlastDB :=
  { psq := [1, 0], phr := [26, 3, 97, 32, 98], headerOffsets := [(0, 5)],
    sequenceOffsets := [(0, 1)], loadHeaders := true,
    split := SplitMode.space, headerDict := [] }

/-- C5: with split mode `space` the decoder appends the token *list*
`['a', 'b']` as a single nested element instead of extending the output
with the individual token strings, and building the eager map then uses
that list as a dict key and fails with `TypeError: unhashable type`; with
split mode `none` the string is kept intact as one identifier. -/
theorem C5_split_bug :
    vsToStr [26, 3, 97, 32, 98] SplitMode.space =
      Except.ok [VsItem.strs [[97], [98]]] ∧
    buildHeaderDict dbC5 = Except.error PyError.typeError ∧
    vsToStr [26, 3, 97, 32, 98] SplitMode.nosplit =
      Except.ok [VsItem.str [97, 32, 98]] := by
  decide

/-- C7: on the sequence-data bytes `[1, 0]` with Offset Entry `(0, 1)`,
random access (`__get_seq_by_position`) translates byte 1 through the
alphabet table and yields `"A"`, while the iterator (`__next__`) decodes
the same byte range as ASCII and yields the control character `'\x01'`:
the two retrieval paths disagree on every non-empty sequence. -/
theorem C7_random_vs_iteration :
    getSeqByPosition [1, 0] (0, 1) = Except.ok ['A'] ∧
    iterResidue [1, 0] (0, 1) = Except.ok [Char.ofNat 1] ∧
    (['A'] : List Char) ≠ [Char.ofNat 1] := by
  decide

lemma lazyScan_none (db : BlastDB) (seqid : List Nat) :
    ∀ (rem j : Nat), (∀ i, j ≤ i → i < j + rem → ¬ seqid <:+: blobAt db i) →
    lazyScan db seqid j rem = Option.none := by
  intro rem
  induction rem with
  | zero => intro j _; rfl
  | succ rem ih =>
    intro j h
    simp only [lazyScan]
    rw [if_neg (h j (le_refl j) (by omega))]
    exact ih (j + 1) (fun i hi1 hi2 => h i (by omega) (by omega))

/-- An empty eager handle: `load_headers=True` with an empty identifier
map. -/
def dbE0 : BlastDB :=
  { psq := [], phr := [], headerOffsets := [], sequenceOffsets := [],
    loadHeaders := true, split := SplitMode.nosplit, headerDict := [] }

/-- C8 counterexample: in eager mode, a lookup of an identifier absent from
the map does not return a normal negative result — `self.__header_dict[seqid]`
raises `KeyError`, modelled as `Except.error PyError.keyError`, so the
operation does not return at all. -/
theorem C8_counterexample :
    dictLookup dbE0.headerDict [97] = Option.none ∧
    getPosition dbE0 [97] = Except.error PyError.keyError ∧
    exceptIsOk (getPosition dbE0 [97]) = false := by
  decide

/-- C8 amended: for an identifier matching no record, lazy-mode lookup
returns `None` normally (a recoverable negative result), but eager-mode
lookup raises `KeyError` instead of returning a negative result. -/
theorem C8_amended (dbL dbE : BlastDB) (seqid : List Nat)
    (h1 : dbL.loadHeaders = false)
    (h2 : ∀ j, j < dbL.headerOffsets.length → ¬ seqid <:+: blobAt dbL j)
    (h3 : dbE.loadHeaders = true)
    (h4 : dictLookup dbE.headerDict seqid = Option.none) :
    getPosition dbL seqid = Except.ok Option.none ∧
    getPosition dbE seqid = Except.error PyError.keyError := by
  constructor
  · unfold getPosition
    rw [h1]
    simp only [Bool.false_eq_true, if_false]
    unfold lazyFirstMatch
    rw [lazyScan_none dbL seqid dbL.headerOffsets.length 0
      (fun i _ hi2 => h2 i (by omega))]
  · unfold getPosition
    rw [h3]
    simp only [if_true]
    rw [h4]

/-- An empty lazy handle with one (empty) record. -/
def dbL0 : BlastDB :=
  { psq := [], phr := [], headerOffsets := [(0, 0)], sequenceOffsets := [(0, 0)],
    loadHeaders := false, split := SplitMode.nosplit, headerDict := [] }

/-- Witness for C8 amended at concrete empty handles. -/
theorem C8_amended_witness :
    getPosition dbL0 [97] = Except.ok Option.none ∧
    getPosition dbE0 [97] = Except.error PyError.keyError :=
  C8_amended dbL0 dbE0 [97] rfl (by decide) rfl (by decide)

/-- C9 counterexample: the short-form field `1A 01 C8` has a non-ASCII
payload byte `0xC8`; the failure propagates as an uncaught
`UnicodeDecodeError` (`VsError.unicodeError`), which carries none of the
diagnostic payload (blob, computed lengths, offset) — only a long-form
failure is reported that way. -/
theorem C9_counterexample :
    vsToStr [26, 1, 200] SplitMode.nosplit =
      Except.error (VsError.unicodeError 0) ∧
    isDiagnosed (VsError.unicodeError 0) = false := by
  decide

/-- C9 amended: whenever the payload of the first decoded field fails ASCII
decoding, the whole decode aborts (never returning a result list and never
skipping the field): in long form with the printed diagnostics (the blob,
`len_len`, `str_len`, the blob length and the tag offset) before `quit()`,
in short form with an uncaught `UnicodeDecodeError` carrying no
diagnostics. -/
theorem C9_amended (s : List Nat) (m : SplitMode) (start : Nat)
    (hfind : findTagFrom s 0 = some start)
    (hidx : start + 1 < s.length)
    (hfail : ¬ ∀ b ∈ (parseField s start).payload, b < 128) :
    (vsToStr s m = Except.error (VsError.unicodeError start) ∨
     vsToStr s m = Except.error
       (VsError.diagnosed s (parseField s start).lenLen (parseField s start).strLen
         s.length start)) ∧
    (s.getD (start + 1) 0 >>> 7 ≠ 0 →
      vsToStr s m = Except.error
        (VsError.diagnosed s (parseField s start).lenLen (parseField s start).strLen
          s.length start)) ∧
    exceptIsOk (vsToStr s m) = false := by
  have key : vsToStr s m =
      if s.getD (start + 1) 0 >>> 7 = 0
      then Except.error (VsError.unicodeError start)
      else Except.error (VsError.diagnosed s (parseField s start).lenLen
        (parseField s start).strLen s.length start) := by
    unfold vsToStr
    simp only [vsLoop, hfind]
    rw [if_pos hidx, if_neg hfail]
  by_cases hd : s.getD (start + 1) 0 >>> 7 = 0
  · rw [key, if_pos hd]
    exact ⟨Or.inl rfl, fun h => absurd hd h, rfl⟩
  · rw [key, if_neg hd]
    exact ⟨Or.inr rfl, fun _ => rfl, rfl⟩

/-- Witness for C9 amended: the long-form field `1A 81 01 C8` fails ASCII
decoding and aborts with the full diagnostic payload. -/
theorem C9_amended_witness :
    vsToStr [26, 129, 1, 200] SplitMode.nosplit =
      Except.error (VsError.diagnosed [26, 129, 1, 200] 1 1 4 0) := by
  have h := (C9_amended [26, 129, 1, 200] SplitMode.nosplit 0 (by decide) (by decide)
      (by decide)).2.1 (by decide)
  rw [h]
  decide

lemma lazyScan_first (db : BlastDB) (seqid : List Nat) :
    ∀ (rem j j1 : Nat), j ≤ j1 → j1 < j + rem →
    (∀ i, j ≤ i → i < j1 → ¬ seqid <:+: blobAt db i) →
    seqid <:+: blobAt db j1 →
    lazyScan db seqid j rem = some (db.sequenceOffsets.getD j1 (0, 0)) := by
  intro rem
  induction rem with
  | zero => intro j j1 h1 h2 _ _; omega
  | succ rem ih =>
    intro j j1 h1 h2 hnone hm
    simp only [lazyScan]
    by_cases he : j = j1
    · subst he
      rw [if_pos hm]
    · have hj : j < j1 := by omega
      rw [if_neg (hnone j (le_refl j) hj)]
      exact ih (j + 1) j1 (by omega) (by omega) (fun i a b => hnone i (by omega) b) hm

lemma synScan_no_match (db : BlastDB) (seqid : List Nat) :
    ∀ (rem j : Nat) (acc : Option (List VsItem)),
    (∀ i, j ≤ i → i < j + rem → ¬ seqid <:+: blobAt db i) →
    synScan db seqid j rem acc = Except.ok acc := by
  intro rem
  induction rem with
  | zero => intro j acc _; rfl
  | succ rem ih =>
    intro j acc h
    simp only [synScan]
    rw [if_neg (h j (le_refl j) (by omega))]
    exact ih (j + 1) acc (fun i a b => h i (by omega) (by omega))

lemma synScan_last (db : BlastDB) (seqid : List Nat) :
    ∀ (rem j j2 : Nat) (acc : Option (List VsItem)) (its2 : List VsItem),
    j ≤ j2 → j2 < j + rem →
    seqid <:+: blobAt db j2 →
    vsToStr (blobAt db j2) db.split = Except.ok its2 →
    (∀ i, j2 < i → i < j + rem → ¬ seqid <:+: blobAt db i) →
    (∀ i, j ≤ i → i < j + rem → seqid <:+: blobAt db i →
      exceptIsOk (vsToStr (blobAt db i) db.split) = true) →
    synScan db seqid j rem acc = Except.ok (some its2) := by
  intro rem
  induction rem with
  | zero => intro j j2 acc its2 h1 h2 _ _ _ _; omega
  | succ rem ih =>
    intro j j2 acc its2 h1 h2 hm2 hdec2 hlast hdecAll
    simp only [synScan]
    by_cases he : j = j2
    · subst he
      rw [if_pos hm2]
      simp only [hdec2]
      exact synScan_no_match db seqid rem (j + 1) (some its2)
        (fun i a b => hlast i (by omega) (by omega))
    · have hj : j < j2 := by omega
      by_cases hm : seqid <:+: blobAt db j
      · rw [if_pos hm]
        have hok := hdecAll j (le_refl j) (by omega) hm
        cases hvs : vsToStr (blobAt db j) db.split with
        | error e =>
          rw [hvs] at hok
          exact Bool.noConfusion hok
        | ok its3 =>
          simp only [hvs]
          exact ih (j + 1) j2 (some its3) its2 (by omega) (by omega) hm2 hdec2
            (fun i a b => hlast i a (by omega))
            (fun i a b c => hdecAll i (by omega) (by omega) c)
      · rw [if_neg hm]
        exact ih (j + 1) j2 acc its2 (by omega) (by omega) hm2 hdec2
          (fun i a b => hlast i a (by omega))
          (fun i a b c => hdecAll i (by omega) (by omega) c)

/-- C10: in lazy mode, for an identifier occurring as a byte substring of
two header blobs (first match at `j1`, last match at `j2 > j1`), position
lookup stops at the first match while the synonym scan keeps the last
match: `get_seq` pairs the sequence of record `j1` with the synonym list of
record `j2`. -/
theorem C10_lazy_first_last (db : BlastDB) (seqid : List Nat) (j1 j2 : Nat)
    (its2 : List VsItem)
    (hlazy : db.loadHeaders = false)
    (hj12 : j1 < j2) (hj2n : j2 < db.headerOffsets.length)
    (hm1 : seqid <:+: blobAt db j1) (hm2 : seqid <:+: blobAt db j2)
    (hfirst : ∀ i, i < j1 → ¬ seqid <:+: blobAt db i)
    (hlast : ∀ i, i < db.headerOffsets.length → j2 < i → ¬ seqid <:+: blobAt db i)
    (hdecAll : ∀ i, i < db.headerOffsets.length → seqid <:+: blobAt db i →
      exceptIsOk (vsToStr (blobAt db i) db.split) = true)
    (hdec2 : vsToStr (blobAt db j2) db.split = Except.ok its2) :
    getPosition db seqid = Except.ok (some (db.sequenceOffsets.getD j1 (0, 0))) ∧
    synonymsLazy db seqid = Except.ok (some its2) ∧
    (∀ cs, getSeqByPosition db.psq (db.sequenceOffsets.getD j1 (0, 0)) = Except.ok cs →
      getSeq db seqid = Except.ok { seq := cs, id := seqid, ids := its2 }) := by
  have hpos : getPosition db seqid =
      Except.ok (some (db.sequenceOffsets.getD j1 (0, 0))) := by
    unfold getPosition
    rw [hlazy]
    simp only [Bool.false_eq_true, if_false]
    unfold lazyFirstMatch
    rw [lazyScan_first db seqid db.headerOffsets.length 0 j1 (by omega) (by omega)
      (fun i _ b => hfirst i b) hm1]
  have hsyn : synonymsLazy db seqid = Except.ok (some its2) := by
    unfold synonymsLazy
    exact synScan_last db seqid db.headerOffsets.length 0 j2 Option.none its2
      (by omega) (by omega) hm2 hdec2 (fun i a b => hlast i (by omega) a)
      (fun i _ b c => hdecAll i (by omega) c)
  have hsyn2 : synonymsOf db seqid = Except.ok (some its2) := by
    unfold synonymsOf
    rw [hlazy]
    simp only [Bool.false_eq_true, if_false, hsyn]
  refine ⟨hpos, hsyn, ?_⟩
  intro cs hcs
  unfold getSeq
  simp only [hpos, hcs, hsyn2]

/-- A concrete lazy handle with two records: identifier `q1` is a byte
substring of both header blobs (`q1` and `q1bb`). -/
def dbW10 : BlastDB :=
  { psq := [1, 0, 2, 0], phr := [26, 2, 113, 49, 26, 4, 113, 49, 98, 98],
    headerOffsets := [(0, 4), (4, 6)], sequenceOffsets := [(0, 1), (2, 1)],
    loadHeaders := false, split := SplitMode.nosplit, headerDict := [] }

/-- Witness for C10: on `dbW10`, looking up `q1` returns the position of
record 0 and the residue of record 0 (`A`), while the synonym list comes
from record 1 (`q1bb`). -/
theorem C10_lazy_first_last_witness :
    getPosition dbW10 [113, 49] = Except.ok (some (0, 1)) ∧
    synonymsLazy dbW10 [113, 49] = Except.ok (some [VsItem.str [113, 49, 98, 98]]) ∧
    getSeq dbW10 [113, 49] =
      Except.ok
        { seq := ['A'], id := [113, 49], ids := [VsItem.str [113, 49, 98, 98]] } := by
  have h := C10_lazy_first_last dbW10 [113, 49] 0 1 [VsItem.str [113, 49, 98, 98]]
    rfl (by decide) (by decide) (by decide) (by decide) (by decide) (by decide)
    (by decide) (by decide)
  refine ⟨?_, h.2.1, h.2.2 ['A'] (by decide)⟩
  rw [h.1]
  decide
